import Mathlib

/-!
The `gmm` driver of IRTK (`packages/segmentation/applications/gmm.cc`).

A shallow embedding of `main` of `gmm.cc`.  The program is a command-line driver around the
class `irtkEMClassification`; the engine itself is an external collaborator here, so a run of
`main` is modelled by the sequence of observable actions it performs (file reads, engine
method calls, messages, file writes) together with the way the run ends.

* The argument vector is a `List String` holding `argv[0] .. argv[argc-1]`; the cursor idiom
  `argc--; argv++` is the tail of the list of arguments that follow the current `argv[0]`,
  and `argv[1]` is its head.  `argv[argc]` is the null pointer, so the head of an empty list
  is modelled by `none`.
* `atoi` (C library) is a parameter of the model; `cAtoi` is a concrete instance.
* The value returned by `IterateGMM(i)` is given by an oracle `Nat → Dbl`: the loop passes the
  indices `1, 2, ...` in order, so the oracle's value at `i` is the result of the `i`-th call.
  `Dbl` stands for the values of a C `double`: NaN, the two infinities and the finite values,
  a finite value being given by the rational number it denotes.
-/

namespace Gmm

/-- Observable actions of `main`, in program order. -/
inductive Event where
  /-- The message of `usage()`: `Usage: ems [image] [n] [atlas 1 ... atlas n] [output] <options>`. -/
  | usageMessage
  /-- The call `image.Read(argv[1])`. -/
  | imageRead (path : String)
  /-- The call `atlas[i]->Read(argv[1])` and its message `Image i = ...`. -/
  | atlasRead (i : Nat) (path : String)
  /-- The call `background->Read(argv[1])` and its message `background  = ...`. -/
  | backgroundRead (path : String)
  /-- The message `Can not parse argument ...`. -/
  | cannotParse (arg : String)
  /-- The constructor `irtkEMClassification(n, atlas)`. -/
  | construct (n : Int) (atlas : List String)
  /-- The constructor `irtkEMClassification(n, atlas, background)`. -/
  | constructWithBackground (n : Int) (atlas : List String) (background : Option String)
  /-- The call `classification.SetInput(image)`. -/
  | setInput (image : String)
  /-- The call `classification.SetPadding(padding)`. -/
  | setPadding (padding : Int)
  /-- The call `classification.InitialiseGMM()`. -/
  | initialiseGMM
  /-- The message `Iteration = i / iterations`. -/
  | progress (i : Nat) (iterations : Int)
  /-- The call `classification.IterateGMM(i)`. -/
  | iterateGMM (i : Nat)
  /-- The call `classification.WriteGaussianParameters(file)`. -/
  | writeGaussianParameters (file : String)
  /-- The call `classification.ConstructSegmentationNoBG(segmentation)`. -/
  | constructSegmentationNoBG
  /-- The call `segmentation.Write(output_name)`; `none` is a null `output_name`. -/
  | segmentationWrite (file : Option String)
  /-- The call `classification.WriteProbMap(i, file)`. -/
  | writeProbMap (i : Nat) (file : String)
  deriving DecidableEq, Repr

/-- How a run of `main` ends. -/
inductive Outcome where
  /-- Control reaches the end of `main`. -/
  | finished
  /-- The call `exit(1)` of `usage()`. -/
  | exit1
  /-- The array length `n` of `new irtkRealImage*[n]` is negative: the allocation does not
  return. -/
  | badArrayLength
  /-- The null pointer `argv[argc]` was handed on as a file name or as the argument of
  `atoi`; what follows is outside the program text and the run is followed no further. -/
  | nullArgument
  deriving DecidableEq, Repr

/-- The local variables of `main` after the argument vector has been consumed. -/
structure Settings where
  /-- The path given to `image.Read`. -/
  image : String
  /-- The number of tissues `n`. -/
  n : Int
  /-- The paths of `atlas[0] .. atlas[n-1]`. -/
  atlas : List String
  /-- The global `output_name`; `none` is the null pointer. -/
  output_name : Option String
  /-- The variable `iterations`. -/
  iterations : Int
  /-- The variable `padding`. -/
  padding : Int
  /-- The variable `background`; `none` is `NULL`. -/
  background : Option String
  deriving DecidableEq, Repr

/-- The values of `iterations`, `padding` and `background` during option parsing. -/
structure Options where
  /-- The variable `iterations`. -/
  iterations : Int
  /-- The variable `padding`. -/
  padding : Int
  /-- The variable `background`; `none` is `NULL`. -/
  background : Option String
  deriving DecidableEq, Repr

/-- The result of a phase of `main`: either the run has ended (with the actions of the phase
and the outcome), or the phase is over (with its actions and a value). -/
inductive Phase (α : Type) where
  /-- The run ended inside the phase. -/
  | stop (trace : List Event) (outcome : Outcome)
  /-- The phase completed. -/
  | next (trace : List Event) (value : α)

/-- The default parameters: `iterations = 15; padding = -1;` and `background = NULL`. -/
def defaultOptions : Options := ⟨15, -1, none⟩

/-- The loop `for (i = 0; i < n; i++)` that reads the atlases, from index `i` on, over the
arguments `args` that follow the current `argv[0]`.  Returns the paths read and the remaining
arguments. -/
def readAtlases (n : Int) : Nat → List String → Phase (List String × List String)
  | i, [] =>
    if (i : Int) < n then Phase.stop [] Outcome.nullArgument
    else Phase.next [] ([], [])
  | i, a :: rest =>
    if (i : Int) < n then
      match readAtlases n (i + 1) rest with
      | Phase.stop tr o => Phase.stop (Event.atlasRead i a :: tr) o
      | Phase.next tr (paths, rest') => Phase.next (Event.atlasRead i a :: tr) (a :: paths, rest')
    else Phase.next [] ([], a :: rest)

/-- The loop `while (argc > 1)` over the remaining arguments. -/
def parseOptions (atoi : String → Int) : List String → Options → Phase Options
  | [], o => Phase.next [] o
  | [a], _ =>
    if a = "-iterations" then Phase.stop [] Outcome.nullArgument
    else if a = "-padding" then Phase.stop [] Outcome.nullArgument
    else if a = "-background" then Phase.stop [] Outcome.nullArgument
    else Phase.stop [Event.cannotParse a, Event.usageMessage] Outcome.exit1
  | a :: v :: rest, o =>
    if a = "-iterations" then parseOptions atoi rest { o with iterations := atoi v }
    else if a = "-padding" then parseOptions atoi rest { o with padding := atoi v }
    else if a = "-background" then
      match parseOptions atoi rest { o with background := some v } with
      | Phase.stop tr out => Phase.stop (Event.backgroundRead v :: tr) out
      | Phase.next tr o' => Phase.next (Event.backgroundRead v :: tr) o'
    else Phase.stop [Event.cannotParse a, Event.usageMessage] Outcome.exit1

/-- The part of `main` up to the end of the `while (argc > 1)` loop. -/
def parseArgs (atoi : String → Int) (argv : List String) : Phase Settings :=
  if argv.length < 4 then Phase.stop [Event.usageMessage] Outcome.exit1
  else
    match argv with
    | _ :: image :: nArg :: args =>
      let n := atoi nArg
      if n < 0 then Phase.stop [Event.imageRead image] Outcome.badArrayLength
      else
        match readAtlases n 0 args with
        | Phase.stop tr o => Phase.stop (Event.imageRead image :: tr) o
        | Phase.next tr (paths, rest) =>
          match parseOptions atoi rest.tail defaultOptions with
          | Phase.stop tr' o => Phase.stop (Event.imageRead image :: tr ++ tr') o
          | Phase.next tr' opts =>
            Phase.next (Event.imageRead image :: tr ++ tr')
              ⟨image, n, paths, rest.head?, opts.iterations, opts.padding, opts.background⟩
    | _ => Phase.stop [Event.usageMessage] Outcome.exit1

/-- The values of a C `double`: NaN, the infinities, and the finite values, each given by the
rational number it denotes (both zeros are `finite 0`). -/
inductive Dbl where
  /-- Not a number. -/
  | nan
  /-- Negative infinity. -/
  | negInf
  /-- A finite value. -/
  | finite (q : ℚ)
  /-- Positive infinity. -/
  | posInf
  deriving DecidableEq

/-- The comparison `a > b` of two doubles; false when either is NaN. -/
def Dbl.gt : Dbl → Dbl → Bool
  | Dbl.nan, _ => false
  | _, Dbl.nan => false
  | Dbl.negInf, _ => false
  | Dbl.finite _, Dbl.negInf => true
  | Dbl.finite a, Dbl.finite b => decide (b < a)
  | Dbl.finite _, Dbl.posInf => false
  | Dbl.posInf, Dbl.posInf => false
  | Dbl.posInf, _ => true

/-- The comparison `a <= b` of two doubles; false when either is NaN. -/
def Dbl.le : Dbl → Dbl → Bool
  | Dbl.nan, _ => false
  | _, Dbl.nan => false
  | Dbl.negInf, _ => true
  | Dbl.finite _, Dbl.negInf => false
  | Dbl.finite a, Dbl.finite b => decide (a ≤ b)
  | Dbl.finite _, Dbl.posInf => true
  | Dbl.posInf, Dbl.posInf => true
  | Dbl.posInf, _ => false

/-- The constant `0.001` of the loop condition: the double nearest to one thousandth,
`1152921504606847 / 2^60`. -/
def threshold : Dbl := Dbl.finite (1152921504606847 / 1152921504606846976)

/-- The loop `do { ... } while ((rel_diff>0.001)&&(i<50));` entered with the counter at `i`. -/
def iterateLoop (IterateGMM : Nat → Dbl) (iterations : Int) (i : Nat) : List Event :=
  let rel_diff := IterateGMM i
  Event.progress i iterations :: Event.iterateGMM i ::
    (if Dbl.gt rel_diff threshold = true ∧ i + 1 < 50 then iterateLoop IterateGMM iterations (i + 1) else [])
termination_by 50 - i
decreasing_by omega

/-- The calls `WriteProbMap(i, file)` of the four `if (n==..)` blocks. -/
def probMaps (n : Int) : List (Nat × String) :=
  (if n = 11 then
    [(0, "csf.hdr"), (1, "gray.hdr"), (2, "caudate.hdr"), (3, "putamen.hdr"), (4, "nigra.hdr"),
      (5, "cerebellum.hdr"), (6, "thalamus.hdr"), (7, "pallidum.hdr"), (8, "brainstem.hdr"),
      (9, "white.hdr"), (10, "cerebellum-white.hdr"), (11, "other.hdr")]
  else []) ++
  (if n = 5 then
    [(0, "caudate.hdr"), (1, "putamen.hdr"), (2, "thalamus.hdr"), (3, "pallidum.hdr"),
      (4, "white.hdr")]
  else []) ++
  (if n = 2 then [(0, "gray.hdr"), (1, "white.hdr")] else []) ++
  (if n = 3 then [(0, "csf.hdr"), (1, "gray.hdr"), (2, "white.hdr")] else [])

/-- The part of `main` from the construction of `classification` to the end. -/
def classify (IterateGMM : Nat → Dbl) (s : Settings) : List Event × Outcome :=
  let head :=
    [Event.construct s.n s.atlas, Event.setInput s.image, Event.setPadding s.padding,
      Event.initialiseGMM] ++
    iterateLoop IterateGMM s.iterations 1 ++
    [Event.writeGaussianParameters "parameters.txt", Event.constructSegmentationNoBG,
      Event.segmentationWrite s.output_name]
  match s.output_name with
  | none => (head, Outcome.nullArgument)
  | some _ => (head ++ (probMaps s.n).map (fun p => Event.writeProbMap p.1 p.2), Outcome.finished)

/-- The program `main`. -/
def main (atoi : String → Int) (IterateGMM : Nat → Dbl) (argv : List String) :
    List Event × Outcome :=
  match parseArgs atoi argv with
  | Phase.stop tr o => (tr, o)
  | Phase.next tr s => (tr ++ (classify IterateGMM s).1, (classify IterateGMM s).2)

/-- The digits of `atoi`: accumulate decimal digits up to the first other character. -/
def atoiDigits : List Char → Int → Int
  | [], acc => acc
  | c :: cs, acc =>
    if c.isDigit then atoiDigits cs (10 * acc + ((c.toNat : Int) - 48)) else acc

/-- The white-space characters of C `isspace`: space and the codes 9 to 13 (`\t`, `\n`, `\v`,
`\f`, `\r`). -/
def isSpace (c : Char) : Bool := c = ' ' || (9 ≤ c.toNat && c.toNat ≤ 13)

/-- A concrete `atoi` (C library, on inputs whose value fits an `int`): leading white space,
an optional sign, then decimal digits; `0` when there is no digit. -/
def cAtoi (s : String) : Int :=
  match s.toList.dropWhile isSpace with
  | '-' :: cs => - atoiDigits cs 0
  | '+' :: cs => atoiDigits cs 0
  | cs => atoiDigits cs 0

/-- The indices `i` of the calls `IterateGMM(i)` of a trace, in order. -/
def iterateCalls : List Event → List Nat
  | [] => []
  | Event.iterateGMM i :: tr => i :: iterateCalls tr
  | _ :: tr => iterateCalls tr

/-- The calls `WriteProbMap(i, file)` of a trace, in order. -/
def probMapWrites : List Event → List (Nat × String)
  | [] => []
  | Event.writeProbMap i f :: tr => (i, f) :: probMapWrites tr
  | _ :: tr => probMapWrites tr

/-- Whether an action is a constructor or method call on `classification`. -/
def Event.isEngineCall : Event → Bool
  | Event.construct _ _ => true
  | Event.constructWithBackground _ _ _ => true
  | Event.setInput _ => true
  | Event.setPadding _ => true
  | Event.initialiseGMM => true
  | Event.iterateGMM _ => true
  | Event.writeGaussianParameters _ => true
  | Event.constructSegmentationNoBG => true
  | Event.writeProbMap _ _ => true
  | _ => false

/-- The constructor and method calls on `classification` of a trace, in order. -/
def engineCalls (tr : List Event) : List Event := tr.filter Event.isEngineCall

/-- Whether an action is a progress message `Iteration = i / iterations`. -/
def Event.isProgress : Event → Bool
  | Event.progress _ _ => true
  | _ => false

/-- The trace without its progress messages. -/
def withoutProgress (tr : List Event) : List Event := tr.filter (fun e => !e.isProgress)

/-- The body of the loop run for the counter values `js`: message, then call. -/
def loopTrace (iterations : Int) : List Nat → List Event
  | [] => []
  | j :: js => Event.progress j iterations :: Event.iterateGMM j :: loopTrace iterations js

/-- Whether an action is one of the file reads of argument parsing. -/
def Event.isParseAction : Event → Bool
  | Event.imageRead _ => true
  | Event.atlasRead _ _ => true
  | Event.backgroundRead _ => true
  | _ => false

/-- The actions of `classify` up to and including `segmentation.Write(output_name)` when the
loop body runs for the counter values `1, .., m`. -/
def classifyHead (s : Settings) (m : Nat) : List Event :=
  [Event.construct s.n s.atlas, Event.setInput s.image, Event.setPadding s.padding,
    Event.initialiseGMM] ++
  loopTrace s.iterations (List.range' 1 m) ++
  [Event.writeGaussianParameters "parameters.txt", Event.constructSegmentationNoBG,
    Event.segmentationWrite s.output_name]

/-- The exports of a run: the calls of `probMaps`, made when `segmentation.Write` had a file
name. -/
def exportsOf (s : Settings) : List Event :=
  if s.output_name.isSome then (probMaps s.n).map (fun p => Event.writeProbMap p.1 p.2) else []

/-- Whether an action is a construction of the engine `irtkEMClassification`. -/
def Event.isConstructor : Event → Bool
  | Event.construct _ _ => true
  | Event.constructWithBackground _ _ _ => true
  | _ => false

/-- The constructions of the engine in a trace, in order. -/
def constructorCalls (tr : List Event) : List Event := tr.filter Event.isConstructor

/-- The three options recognised by the `while (argc > 1)` loop. -/
inductive OptionName where
  /-- The option `-iterations`. -/
  | iterations
  /-- The option `-padding`. -/
  | padding
  /-- The option `-background`. -/
  | background
  deriving DecidableEq, Repr

/-- The command-line spelling of an option. -/
def OptionName.flag : OptionName → String
  | OptionName.iterations => "-iterations"
  | OptionName.padding => "-padding"
  | OptionName.background => "-background"

/-- The arguments spelling a list of options, each followed by its value. -/
def optionArgs : List (OptionName × String) → List String
  | [] => []
  | (k, v) :: opts => k.flag :: v :: optionArgs opts

/-- A well-formed argument vector, after the usage line
`ems [image] [n] [atlas 1 ... atlas n] [output] <options>`: program name, image, the class
count, the atlases, the output name, then options each with its value. -/
def wellFormedArgv (prog image nArg : String) (atlases : List String) (output : String)
    (opts : List (OptionName × String)) : List String :=
  prog :: image :: nArg :: (atlases ++ output :: optionArgs opts)

/-- The value that follows the last occurrence of option `k`, if there is one. -/
def lastValue (k : OptionName) (opts : List (OptionName × String)) : Option String :=
  ((opts.filter (fun o => o.1 = k)).map Prod.snd).getLast?

/-- The effect of one option with its value on the three settings. -/
def applyOption (atoi : String → Int) (o : Options) (kv : OptionName × String) : Options :=
  match kv.1 with
  | OptionName.iterations => { o with iterations := atoi kv.2 }
  | OptionName.padding => { o with padding := atoi kv.2 }
  | OptionName.background => { o with background := some kv.2 }

/-- The reads of the atlases `paths`, numbered from `i`. -/
def atlasReads : Nat → List String → List Event
  | _, [] => []
  | i, a :: paths => Event.atlasRead i a :: atlasReads (i + 1) paths

/-- The reads of the background grids of a list of options. -/
def backgroundReads : List (OptionName × String) → List Event
  | [] => []
  | (OptionName.background, v) :: opts => Event.backgroundRead v :: backgroundReads opts
  | _ :: opts => backgroundReads opts

/-- The arguments of the calls `SetPadding(padding)` of a trace, in order. -/
def paddingCalls : List Event → List Int
  | [] => []
  | Event.setPadding p :: tr => p :: paddingCalls tr
  | _ :: tr => paddingCalls tr

/-! ## The convergence loop -/

theorem iterateLoop_unfold (r : Nat → Dbl) (its : Int) (i : Nat) :
    iterateLoop r its i =
      Event.progress i its :: Event.iterateGMM i ::
        (if Dbl.gt (r i) threshold = true ∧ i + 1 < 50 then iterateLoop r its (i + 1) else []) := by
  rw [iterateLoop]

/-- The loop entered below the bound runs its body for the counter values `i, .., i+m-1`,
where every value but the last one returned is above the threshold, and the last one is not
unless the counter has reached 50. -/
theorem iterateLoop_spec (r : Nat → Dbl) (its : Int) (d : Nat) :
    ∀ i, 50 - i = d → i < 50 →
      ∃ m, 1 ≤ m ∧ i + m ≤ 50 ∧ iterateLoop r its i = loopTrace its (List.range' i m) ∧
        (∀ j, i ≤ j → j + 1 < i + m → Dbl.gt (r j) threshold = true) ∧
        (i + m < 50 → ¬ Dbl.gt (r (i + m - 1)) threshold = true) := by
  induction d with
  | zero => intro i h hi; omega
  | succ d ih =>
    intro i h hi
    by_cases hc : Dbl.gt (r i) threshold = true ∧ i + 1 < 50
    · obtain ⟨m, hm1, hm2, htr, habove, hlast⟩ := ih (i + 1) (by omega) hc.2
      refine ⟨m + 1, by omega, by omega, ?_, ?_, ?_⟩
      · rw [iterateLoop_unfold, if_pos hc, htr, List.range'_succ, loopTrace]
      · intro j hj hjm
        rcases Nat.eq_or_lt_of_le hj with h0 | h0
        · subst h0; exact hc.1
        · exact habove j (by omega) (by omega)
      · intro hlt
        have := hlast (by omega)
        have e : i + (m + 1) - 1 = i + 1 + m - 1 := by omega
        rw [e]; exact this
    · refine ⟨1, le_refl 1, by omega, ?_, ?_, ?_⟩
      · rw [iterateLoop_unfold, if_neg hc]; rfl
      · intro j hj hjm; omega
      · intro hlt hr
        exact hc ⟨hr, by omega⟩

theorem iterateCalls_append (a b : List Event) :
    iterateCalls (a ++ b) = iterateCalls a ++ iterateCalls b := by
  induction a with
  | nil => rfl
  | cons e a ih => cases e <;> simp [iterateCalls, ih]

theorem iterateCalls_loopTrace (its : Int) (js : List Nat) :
    iterateCalls (loopTrace its js) = js := by
  induction js with
  | nil => rfl
  | cons j js ih => simp [loopTrace, iterateCalls, ih]

/-! ## Argument parsing -/

theorem readAtlases_trace (n : Int) :
    ∀ (args : List String) (i : Nat) (tr : List Event) (v : List String × List String),
      readAtlases n i args = Phase.next tr v → ∀ e ∈ tr, e.isParseAction = true := by
  intro args
  induction args with
  | nil =>
    intro i tr v h
    simp only [readAtlases] at h
    split at h
    · cases h
    · cases h; simp
  | cons a rest ih =>
    intro i tr v h
    simp only [readAtlases] at h
    split at h
    · split at h
      · cases h
      · rename_i tr0 paths rest0 heq
        cases h
        intro e he
        rcases List.mem_cons.1 he with h1 | h1
        · subst h1; rfl
        · exact ih _ _ _ heq e h1
    · cases h; simp

theorem parseOptions_trace (atoi : String → Int) :
    ∀ (k : Nat) (args : List String) (o : Options) (tr : List Event) (o' : Options),
      args.length ≤ k → parseOptions atoi args o = Phase.next tr o' →
        ∀ e ∈ tr, e.isParseAction = true := by
  intro k
  induction k with
  | zero =>
    intro args o tr o' hk h
    have : args = [] := List.length_eq_zero.1 (Nat.le_zero.1 hk)
    subst this
    simp only [parseOptions] at h
    cases h; simp
  | succ k ih =>
    intro args o tr o' hk h
    match args, hk, h with
    | [], _, h => simp only [parseOptions] at h; cases h; simp
    | [a], _, h =>
      simp only [parseOptions] at h
      split at h
      · cases h
      · split at h
        · cases h
        · split at h <;> cases h
    | a :: v :: rest, hk, h =>
      simp only [parseOptions] at h
      have hlen : rest.length ≤ k := by simp at hk; omega
      split at h
      · exact ih _ _ _ _ hlen h
      · split at h
        · exact ih _ _ _ _ hlen h
        · split at h
          · split at h
            · cases h
            · rename_i tr0 o0 heq
              cases h
              intro e he
              rcases List.mem_cons.1 he with h1 | h1
              · subst h1; rfl
              · exact ih _ _ _ _ hlen heq e h1
          · cases h

theorem parseArgs_trace (atoi : String → Int) (argv : List String) (tr : List Event)
    (s : Settings) (h : parseArgs atoi argv = Phase.next tr s) :
    ∀ e ∈ tr, e.isParseAction = true := by
  unfold parseArgs at h
  split at h
  · cases h
  · split at h
    · simp only at h
      split at h
      · cases h
      · split at h
        · cases h
        · rename_i tr0 paths rest heq
          split at h
          · cases h
          · rename_i tr1 opts heq1
            cases h
            intro e he
            rcases List.mem_cons.1 he with h1 | h1
            · subst h1; rfl
            · rcases List.mem_append.1 h1 with h2 | h2
              · exact readAtlases_trace _ _ _ _ _ heq e h2
              · exact parseOptions_trace atoi _ _ _ _ _ (le_refl _) heq1 e h2
    · cases h

theorem parseOptions_background (atoi : String → Int) :
    ∀ (k : Nat) (args : List String) (o : Options) (tr : List Event) (o' : Options),
      args.length ≤ k → parseOptions atoi args o = Phase.next tr o' →
        ∀ b, o'.background = some b → Event.backgroundRead b ∈ tr ∨ o.background = some b := by
  intro k
  induction k with
  | zero =>
    intro args o tr o' hk h b hb
    have : args = [] := List.length_eq_zero.1 (Nat.le_zero.1 hk)
    subst this
    simp only [parseOptions] at h
    cases h
    exact Or.inr hb
  | succ k ih =>
    intro args o tr o' hk h b hb
    match args, hk, h with
    | [], _, h =>
      simp only [parseOptions] at h
      cases h
      exact Or.inr hb
    | [a], _, h =>
      simp only [parseOptions] at h
      split at h
      · cases h
      · split at h
        · cases h
        · split at h <;> cases h
    | a :: v :: rest, hk, h =>
      simp only [parseOptions] at h
      have hlen : rest.length ≤ k := by simp at hk; omega
      split at h
      · exact ih _ _ _ _ hlen h b hb
      · split at h
        · exact ih _ _ _ _ hlen h b hb
        · split at h
          · split at h
            · cases h
            · rename_i tr0 o0 heq
              cases h
              rcases ih _ _ _ _ hlen heq b hb with h1 | h1
              · exact Or.inl (List.mem_cons_of_mem _ h1)
              · have hv : v = b := by simpa using h1
                subst hv
                exact Or.inl (List.mem_cons_self _ _)
          · cases h

/-- A background grid held by the variable `background` after parsing has been read. -/
theorem parseArgs_background (atoi : String → Int) (argv : List String) (tr : List Event)
    (s : Settings) (h : parseArgs atoi argv = Phase.next tr s) (b : String)
    (hb : s.background = some b) : Event.backgroundRead b ∈ tr := by
  unfold parseArgs at h
  split at h
  · cases h
  · split at h
    · simp only at h
      split at h
      · cases h
      · split at h
        · cases h
        · rename_i tr0 paths rest heq
          split at h
          · cases h
          · rename_i tr1 opts heq1
            cases h
            rcases parseOptions_background atoi _ _ _ _ _ (le_refl _) heq1 b hb with h1 | h1
            · exact List.mem_cons_of_mem _ (List.mem_append_right _ h1)
            · cases h1
    · cases h

theorem main_of_next (atoi : String → Int) (r : Nat → Dbl) (argv : List String)
    (tr : List Event) (s : Settings) (h : parseArgs atoi argv = Phase.next tr s) :
    main atoi r argv = (tr ++ (classify r s).1, (classify r s).2) := by
  simp [main, h]

/-! ## The classification phase -/

theorem classify_spec (r : Nat → Dbl) (s : Settings) :
    ∃ m, 1 ≤ m ∧ m ≤ 49 ∧
      (classify r s).1 = classifyHead s m ++ exportsOf s ∧
      (∀ j, 1 ≤ j → j < m → Dbl.gt (r j) threshold = true) ∧
      (m < 49 → ¬ Dbl.gt (r m) threshold = true) := by
  obtain ⟨m, hm1, hm2, htr, habove, hlast⟩ :=
    iterateLoop_spec r s.iterations 49 1 (by decide) (by decide)
  refine ⟨m, hm1, by omega, ?_, ?_, ?_⟩
  · unfold classify classifyHead exportsOf
    rw [htr]
    cases s.output_name <;> simp
  · intro j hj hjm
    exact habove j hj (by omega)
  · intro hlt
    have := hlast (by omega)
    have e : 1 + m - 1 = m := by omega
    rw [e] at this; exact this

theorem classify_outcome (r : Nat → Dbl) (s : Settings) :
    (classify r s).2 = if s.output_name.isSome then Outcome.finished else Outcome.nullArgument := by
  unfold classify
  cases s.output_name <;> simp

theorem iterateCalls_parse (tr : List Event) (h : ∀ e ∈ tr, e.isParseAction = true) :
    iterateCalls tr = [] := by
  induction tr with
  | nil => rfl
  | cons e tr ih =>
    have he := h e (List.mem_cons_self _ _)
    have ht := ih (fun x hx => h x (List.mem_cons_of_mem _ hx))
    cases e <;> simp [Event.isParseAction] at he <;> simp [iterateCalls, ht]

theorem iterateCalls_map_writeProbMap (l : List (Nat × String)) :
    iterateCalls (l.map (fun p => Event.writeProbMap p.1 p.2)) = [] := by
  induction l with
  | nil => rfl
  | cons p l ih => simp [iterateCalls, ih]

theorem iterateCalls_classify (s : Settings) (m : Nat) :
    iterateCalls (classifyHead s m ++ exportsOf s) = List.range' 1 m := by
  unfold classifyHead exportsOf
  split <;>
    simp [iterateCalls_append, iterateCalls, iterateCalls_loopTrace,
      iterateCalls_map_writeProbMap]

/-- The `IterateGMM` calls of a run that gets past argument parsing: the indices `1, .., m`
for some `1 ≤ m ≤ 49`, every value but the last above the threshold, and the last one not
above it unless `m = 49`. -/
theorem main_iterateCalls (atoi : String → Int) (r : Nat → Dbl) (argv : List String)
    (tr : List Event) (s : Settings) (h : parseArgs atoi argv = Phase.next tr s) :
    ∃ m, 1 ≤ m ∧ m ≤ 49 ∧ iterateCalls (main atoi r argv).1 = List.range' 1 m ∧
      (∀ j, 1 ≤ j → j < m → Dbl.gt (r j) threshold = true) ∧ (m < 49 → ¬ Dbl.gt (r m) threshold = true) := by
  obtain ⟨m, hm1, hm2, htr, habove, hlast⟩ := classify_spec r s
  refine ⟨m, hm1, hm2, ?_, habove, hlast⟩
  rw [main_of_next atoi r argv tr s h]
  simp only [iterateCalls_append, htr, iterateCalls_parse tr (parseArgs_trace atoi argv tr s h),
    List.nil_append]
  rw [← iterateCalls_append]
  exact iterateCalls_classify s m

/-! ## Claims about the convergence loop -/

/-- C1, as stated, fails in two ways.  With the value `1` at the indices below 50 and `0`
from 50 on, `k = 50` is the first index whose value is at or below `0.001` and only 49 calls
precede it, yet the calls are `1, .., 49`: call 50 is never made.  With NaN at index 1 and
`0` afterwards, `k = 2` is the first index whose value is at or below `0.001`, yet the loop
stops after call 1. -/
theorem C1_counterexample :
    ((List.range' 1 49).all
      (fun j => !Dbl.le ((fun i => if i < 50 then Dbl.finite 1 else Dbl.finite 0) j) threshold)) =
        true ∧
    Dbl.le ((fun i => if i < 50 then Dbl.finite 1 else Dbl.finite 0) 50) threshold = true ∧
    iterateCalls (main cAtoi (fun i => if i < 50 then Dbl.finite 1 else Dbl.finite 0)
      ["ems", "img", "1", "a", "out"]).1 = List.range' 1 49 ∧
    50 ∉ iterateCalls (main cAtoi (fun i => if i < 50 then Dbl.finite 1 else Dbl.finite 0)
      ["ems", "img", "1", "a", "out"]).1 ∧
    Dbl.le ((fun i => if i = 1 then Dbl.nan else Dbl.finite 0) 1) threshold = false ∧
    Dbl.le ((fun i => if i = 1 then Dbl.nan else Dbl.finite 0) 2) threshold = true ∧
    iterateCalls (main cAtoi (fun i => if i = 1 then Dbl.nan else Dbl.finite 0)
      ["ems", "img", "1", "a", "out"]).1 = [1] := by
  have hp : parseArgs cAtoi ["ems", "img", "1", "a", "out"] =
      Phase.next [Event.imageRead "img", Event.atlasRead 0 "a"]
        ⟨"img", 1, ["a"], some "out", 15, -1, none⟩ := rfl
  have h1 : Dbl.gt (Dbl.finite 1) threshold = true := by norm_num [Dbl.gt, threshold]
  have hle1 : Dbl.le (Dbl.finite 1) threshold = false := by norm_num [Dbl.le, threshold]
  have hle0 : Dbl.le (Dbl.finite 0) threshold = true := by norm_num [Dbl.le, threshold]
  have hcap : iterateCalls (main cAtoi (fun i => if i < 50 then Dbl.finite 1 else Dbl.finite 0)
      ["ems", "img", "1", "a", "out"]).1 = List.range' 1 49 := by
    obtain ⟨m, hm1, hm2, hcalls, _, hlast⟩ := main_iterateCalls cAtoi
      (fun i => if i < 50 then Dbl.finite 1 else Dbl.finite 0) ["ems", "img", "1", "a", "out"]
      _ _ hp
    have hm : m = 49 := by
      by_contra hne
      have hlt : m < 50 := by omega
      exact hlast (by omega) (by simp only [hlt, if_true]; exact h1)
    rw [hcalls, hm]
  have hnan : iterateCalls (main cAtoi (fun i => if i = 1 then Dbl.nan else Dbl.finite 0)
      ["ems", "img", "1", "a", "out"]).1 = [1] := by
    obtain ⟨m, hm1, hm2, hcalls, habove, _⟩ := main_iterateCalls cAtoi
      (fun i => if i = 1 then Dbl.nan else Dbl.finite 0) ["ems", "img", "1", "a", "out"]
      _ _ hp
    have hm : m = 1 := by
      by_contra hne
      have := habove 1 (le_refl 1) (by omega)
      simp [Dbl.gt] at this
    rw [hcalls, hm]; rfl
  refine ⟨?_, ?_, hcap, ?_, ?_, ?_, hnan⟩
  · rw [List.all_eq_true]
    intro j hj
    rw [List.mem_range'_1] at hj
    have hlt : j < 50 := by omega
    simp only [hlt, if_true, hle1, Bool.not_false]
  · simpa using hle0
  · rw [hcap, List.mem_range'_1]; omega
  · simp [Dbl.le]
  · simpa using hle0

/-- C1 (amended): in a run of `main` that gets past argument parsing, `IterateGMM` is called
with the indices `1, 2, 3, ..` in consecutive order; if `k ≤ 49` is the first index whose
returned value is not above `0.001` (at or below it, or NaN), the calls are exactly those
with the indices `1, .., k`; and after every call `j ≤ 48` whose value is above `0.001` the
index `j + 1` is called. -/
theorem C1_loop_stops_at_first_convergence (atoi : String → Int) (r : Nat → Dbl)
    (argv : List String) (tr : List Event) (s : Settings)
    (hparse : parseArgs atoi argv = Phase.next tr s) :
    (∃ m, iterateCalls (main atoi r argv).1 = List.range' 1 m) ∧
    (∀ k, 1 ≤ k → k ≤ 49 → (∀ j, 1 ≤ j → j < k → Dbl.gt (r j) threshold = true) →
      Dbl.gt (r k) threshold = false →
      iterateCalls (main atoi r argv).1 = List.range' 1 k) ∧
    (∀ j, j ∈ iterateCalls (main atoi r argv).1 → Dbl.gt (r j) threshold = true → j ≤ 48 →
      j + 1 ∈ iterateCalls (main atoi r argv).1) := by
  obtain ⟨m, hm1, hm2, hcalls, habove, hlast⟩ := main_iterateCalls atoi r argv tr s hparse
  refine ⟨⟨m, hcalls⟩, ?_, ?_⟩
  · intro k hk1 hk49 hfirst hk
    have hmk : m = k := by
      rcases Nat.lt_trichotomy m k with hlt | heq | hgt
      · exact absurd (hfirst m hm1 hlt) (hlast (by omega))
      · exact heq
      · have := habove k hk1 hgt
        rw [hk] at this
        cases this
    rw [hcalls, hmk]
  · intro j hj hrj hj48
    rw [hcalls] at hj ⊢
    rw [List.mem_range'_1] at hj ⊢
    have : j + 1 < 1 + m := by
      by_contra hcon
      have hjeq : m = j := by omega
      exact hlast (by omega) (hjeq ▸ hrj)
    omega

/-- Witness of C1 (amended): with one atlas and values `1, 1, NaN, ..` the calls are
`1, 2, 3`. -/
theorem C1_loop_stops_at_first_convergence_witness :
    iterateCalls
      (main cAtoi (fun i => if i < 3 then Dbl.finite 1 else Dbl.nan)
        ["ems", "img", "1", "a", "out"]).1 = [1, 2, 3] :=
  (C1_loop_stops_at_first_convergence cAtoi (fun i => if i < 3 then Dbl.finite 1 else Dbl.nan)
    ["ems", "img", "1", "a", "out"] _ _ rfl).2.1 3 (by decide) (by decide)
    (by intro j h1 h2; interval_cases j <;> norm_num [Dbl.gt, threshold])
    (by simp [Dbl.gt])

/-- C2, as stated, fails: when every value returned is `1 > 0.001`, `IterateGMM` is called 49
times and never with index 50. -/
theorem C2_counterexample :
    Dbl.gt (Dbl.finite 1) threshold = true ∧
    (iterateCalls
      (main cAtoi (fun _ => Dbl.finite 1) ["ems", "img", "1", "a", "out"]).1).length = 49 ∧
    50 ∉ iterateCalls (main cAtoi (fun _ => Dbl.finite 1) ["ems", "img", "1", "a", "out"]).1 := by
  obtain ⟨m, hm1, hm2, hcalls, habove, hlast⟩ :=
    main_iterateCalls cAtoi (fun _ => Dbl.finite 1) ["ems", "img", "1", "a", "out"] _ _ rfl
  have h1 : Dbl.gt (Dbl.finite 1) threshold = true := by norm_num [Dbl.gt, threshold]
  have hm : m = 49 := by
    by_contra hne
    exact hlast (by omega) h1
  subst hm
  refine ⟨h1, ?_, ?_⟩
  · rw [hcalls]; simp
  · rw [hcalls, List.mem_range'_1]; omega

/-- C2 (amended): if the value returned by `IterateGMM` is above `0.001` at every iteration,
the loop stops when its counter reaches 50: `IterateGMM` is called exactly 49 times, with the
indices 1 through 49. -/
theorem C2_loop_stops_at_bound (atoi : String → Int) (r : Nat → Dbl)
    (argv : List String) (tr : List Event) (s : Settings)
    (hparse : parseArgs atoi argv = Phase.next tr s)
    (habove : ∀ i, 1 ≤ i → Dbl.gt (r i) threshold = true) :
    iterateCalls (main atoi r argv).1 = List.range' 1 49 ∧
    (iterateCalls (main atoi r argv).1).length = 49 := by
  obtain ⟨m, hm1, hm2, hcalls, _, hlast⟩ := main_iterateCalls atoi r argv tr s hparse
  have hm : m = 49 := by
    by_contra hne
    exact hlast (by omega) (habove m hm1)
  subst hm
  exact ⟨hcalls, by rw [hcalls]; simp⟩

/-- Witness of C2 (amended): the constant value `1/2`. -/
theorem C2_loop_stops_at_bound_witness :
    iterateCalls
      (main cAtoi (fun _ => Dbl.finite (1 / 2)) ["ems", "img", "2", "a", "b", "out"]).1 =
        List.range' 1 49 ∧
    (iterateCalls
      (main cAtoi (fun _ => Dbl.finite (1 / 2)) ["ems", "img", "2", "a", "b", "out"]).1).length =
        49 :=
  C2_loop_stops_at_bound cAtoi (fun _ => Dbl.finite (1 / 2))
    ["ems", "img", "2", "a", "b", "out"] _ _ rfl
    (by intro i _; norm_num [Dbl.gt, threshold])

/-- C3: the loop terminates whatever `IterateGMM` returns: in every run of `main` that gets
past argument parsing the number of `IterateGMM` calls is at least 1 and at most 50. -/
theorem C3_loop_terminates (atoi : String → Int) (r : Nat → Dbl)
    (argv : List String) (tr : List Event) (s : Settings)
    (hparse : parseArgs atoi argv = Phase.next tr s) :
    1 ≤ (iterateCalls (main atoi r argv).1).length ∧
    (iterateCalls (main atoi r argv).1).length ≤ 50 := by
  obtain ⟨m, hm1, hm2, hcalls, _, _⟩ := main_iterateCalls atoi r argv tr s hparse
  rw [hcalls, List.length_range']
  omega

/-- Witness of C3: values oscillating above the threshold forever. -/
theorem C3_loop_terminates_witness :
    1 ≤ (iterateCalls
      (main cAtoi (fun i => if i % 2 = 0 then Dbl.finite 2 else Dbl.finite 1) ["ems", "img", "0", "out"]).1).length ∧
    (iterateCalls
      (main cAtoi (fun i => if i % 2 = 0 then Dbl.finite 2 else Dbl.finite 1) ["ems", "img", "0", "out"]).1).length
        ≤ 50 :=
  C3_loop_terminates cAtoi (fun i => if i % 2 = 0 then Dbl.finite 2 else Dbl.finite 1) ["ems", "img", "0", "out"]
    _ _ rfl

/-! ## Projections of the trace of a run -/

theorem probMapWrites_append (a b : List Event) :
    probMapWrites (a ++ b) = probMapWrites a ++ probMapWrites b := by
  induction a with
  | nil => rfl
  | cons e a ih => cases e <;> simp [probMapWrites, ih]

theorem probMapWrites_parse (tr : List Event) (h : ∀ e ∈ tr, e.isParseAction = true) :
    probMapWrites tr = [] := by
  induction tr with
  | nil => rfl
  | cons e tr ih =>
    have he := h e (List.mem_cons_self _ _)
    have ht := ih (fun x hx => h x (List.mem_cons_of_mem _ hx))
    cases e <;> simp [Event.isParseAction] at he <;> simp [probMapWrites, ht]

theorem probMapWrites_loopTrace (its : Int) (js : List Nat) :
    probMapWrites (loopTrace its js) = [] := by
  induction js with
  | nil => rfl
  | cons j js ih => simp [loopTrace, probMapWrites, ih]

theorem probMapWrites_map (l : List (Nat × String)) :
    probMapWrites (l.map (fun p => Event.writeProbMap p.1 p.2)) = l := by
  induction l with
  | nil => rfl
  | cons p l ih => simp [probMapWrites, ih]

/-- The named probability maps written by a run that gets past argument parsing. -/
theorem main_probMapWrites (atoi : String → Int) (r : Nat → Dbl) (argv : List String)
    (tr : List Event) (s : Settings) (h : parseArgs atoi argv = Phase.next tr s) :
    probMapWrites (main atoi r argv).1 = if s.output_name.isSome then probMaps s.n else [] := by
  obtain ⟨m, _, _, htr, _, _⟩ := classify_spec r s
  rw [main_of_next atoi r argv tr s h]
  simp only [probMapWrites_append, htr, probMapWrites_parse tr (parseArgs_trace atoi argv tr s h),
    List.nil_append]
  unfold classifyHead exportsOf
  split <;>
    simp [probMapWrites_append, probMapWrites, probMapWrites_loopTrace, probMapWrites_map]

theorem filter_parse (p : Event → Bool) (hp : ∀ e, e.isParseAction = true → p e = false)
    (tr : List Event) (h : ∀ e ∈ tr, e.isParseAction = true) : tr.filter p = [] := by
  rw [List.filter_eq_nil_iff]
  intro e he
  simp [hp e (h e he)]

theorem engineCalls_loopTrace (its : Int) (js : List Nat) :
    engineCalls (loopTrace its js) = js.map Event.iterateGMM := by
  induction js with
  | nil => rfl
  | cons j js ih =>
    unfold engineCalls at ih ⊢
    simp [loopTrace, List.filter_cons, Event.isEngineCall, ih]

theorem engineCalls_exportsOf (s : Settings) : engineCalls (exportsOf s) = exportsOf s := by
  unfold engineCalls
  rw [List.filter_eq_self]
  intro e he
  unfold exportsOf at he
  split at he
  · obtain ⟨p, _, rfl⟩ := List.mem_map.1 he
    rfl
  · cases he

theorem constructorCalls_loopTrace (its : Int) (js : List Nat) :
    constructorCalls (loopTrace its js) = [] := by
  induction js with
  | nil => rfl
  | cons j js ih =>
    unfold constructorCalls at ih ⊢
    simp [loopTrace, List.filter_cons, Event.isConstructor, ih]

theorem constructorCalls_exportsOf (s : Settings) : constructorCalls (exportsOf s) = [] := by
  unfold constructorCalls
  rw [List.filter_eq_nil_iff]
  intro e he
  unfold exportsOf at he
  split at he
  · obtain ⟨p, _, rfl⟩ := List.mem_map.1 he
    simp [Event.isConstructor]
  · cases he

/-- The constructions of the engine in a run that gets past argument parsing. -/
theorem main_constructorCalls (atoi : String → Int) (r : Nat → Dbl) (argv : List String)
    (tr : List Event) (s : Settings) (h : parseArgs atoi argv = Phase.next tr s) :
    constructorCalls (main atoi r argv).1 = [Event.construct s.n s.atlas] := by
  obtain ⟨m, _, _, htr, _, _⟩ := classify_spec r s
  have hparse : constructorCalls tr = [] :=
    filter_parse _ (by intro e he; cases e <;> simp_all [Event.isParseAction, Event.isConstructor])
      tr (parseArgs_trace atoi argv tr s h)
  rw [main_of_next atoi r argv tr s h]
  simp only [htr]
  have hl := constructorCalls_loopTrace s.iterations (List.range' 1 m)
  have he := constructorCalls_exportsOf s
  unfold constructorCalls at hparse hl he ⊢
  simp [classifyHead, List.filter_append, hparse, hl, he, List.filter_cons, Event.isConstructor]

/-- The calls on the engine in a run that gets past argument parsing. -/
theorem main_engineCalls (atoi : String → Int) (r : Nat → Dbl) (argv : List String)
    (tr : List Event) (s : Settings) (h : parseArgs atoi argv = Phase.next tr s) :
    ∃ m, 1 ≤ m ∧ m ≤ 49 ∧
      engineCalls (main atoi r argv).1 =
        [Event.construct s.n s.atlas, Event.setInput s.image, Event.setPadding s.padding,
          Event.initialiseGMM] ++
        (List.range' 1 m).map Event.iterateGMM ++
        [Event.writeGaussianParameters "parameters.txt", Event.constructSegmentationNoBG] ++
        exportsOf s := by
  obtain ⟨m, hm1, hm2, htr, _, _⟩ := classify_spec r s
  refine ⟨m, hm1, hm2, ?_⟩
  have hparse : engineCalls tr = [] :=
    filter_parse _ (by intro e he; cases e <;> simp_all [Event.isParseAction, Event.isEngineCall])
      tr (parseArgs_trace atoi argv tr s h)
  rw [main_of_next atoi r argv tr s h]
  simp only [htr]
  have hl := engineCalls_loopTrace s.iterations (List.range' 1 m)
  have he := engineCalls_exportsOf s
  unfold engineCalls at hparse hl he ⊢
  simp [classifyHead, List.filter_append, hparse, hl, he, List.filter_cons, Event.isEngineCall]

/-! ## Claims about the outputs -/

/-- C4, as stated, fails for the preset `N = 11`: the run writes 12 named probability maps,
the last one with class index 11. -/
theorem C4_counterexample :
    cAtoi "11" = 11 ∧
    (main cAtoi (fun _ => Dbl.finite 0)
      ["ems", "img", "11", "a0", "a1", "a2", "a3", "a4", "a5", "a6", "a7", "a8", "a9", "a10",
        "out"]).2 = Outcome.finished ∧
    (probMapWrites (main cAtoi (fun _ => Dbl.finite 0)
      ["ems", "img", "11", "a0", "a1", "a2", "a3", "a4", "a5", "a6", "a7", "a8", "a9", "a10",
        "out"]).1).length = 12 ∧
    (11, "other.hdr") ∈ probMapWrites (main cAtoi (fun _ => Dbl.finite 0)
      ["ems", "img", "11", "a0", "a1", "a2", "a3", "a4", "a5", "a6", "a7", "a8", "a9", "a10",
        "out"]).1 := by
  have hp : parseArgs cAtoi
      ["ems", "img", "11", "a0", "a1", "a2", "a3", "a4", "a5", "a6", "a7", "a8", "a9", "a10",
        "out"] =
      Phase.next
        [Event.imageRead "img", Event.atlasRead 0 "a0", Event.atlasRead 1 "a1",
          Event.atlasRead 2 "a2", Event.atlasRead 3 "a3", Event.atlasRead 4 "a4",
          Event.atlasRead 5 "a5", Event.atlasRead 6 "a6", Event.atlasRead 7 "a7",
          Event.atlasRead 8 "a8", Event.atlasRead 9 "a9", Event.atlasRead 10 "a10"]
        ⟨"img", 11, ["a0", "a1", "a2", "a3", "a4", "a5", "a6", "a7", "a8", "a9", "a10"],
          some "out", 15, -1, none⟩ := rfl
  refine ⟨by decide, by decide, ?_, ?_⟩
  · rw [main_probMapWrites cAtoi (fun _ => Dbl.finite 0) _ _ _ hp]; decide
  · rw [main_probMapWrites cAtoi (fun _ => Dbl.finite 0) _ _ _ hp]; decide

/-- C4 (amended): in a run of `main` that gets past argument parsing with an output name, for
the preset class counts 2, 3 and 5 the named probability maps written have the class indices
`0, .., n-1` in ascending order (exactly `n` maps); for the preset 11 they have the class
indices `0, .., 11` in ascending order (12 maps, the last being `other.hdr`); for `n = 3` the
sequence is exactly `(0, csf.hdr), (1, gray.hdr), (2, white.hdr)`. -/
theorem C4_preset_exports (atoi : String → Int) (r : Nat → Dbl) (argv : List String)
    (tr : List Event) (s : Settings) (out : String)
    (hparse : parseArgs atoi argv = Phase.next tr s) (hout : s.output_name = some out) :
    (s.n = 2 ∨ s.n = 3 ∨ s.n = 5 →
      (probMapWrites (main atoi r argv).1).map Prod.fst = List.range s.n.toNat ∧
      (probMapWrites (main atoi r argv).1).length = s.n.toNat) ∧
    (s.n = 11 →
      (probMapWrites (main atoi r argv).1).map Prod.fst = List.range 12 ∧
      (probMapWrites (main atoi r argv).1).getLast? = some (11, "other.hdr")) ∧
    (s.n = 3 →
      probMapWrites (main atoi r argv).1 = [(0, "csf.hdr"), (1, "gray.hdr"), (2, "white.hdr")]) := by
  rw [main_probMapWrites atoi r argv tr s hparse, hout]
  simp only [Option.isSome_some, if_true]
  refine ⟨?_, ?_, ?_⟩
  · rintro (h | h | h) <;> rw [h] <;> decide
  · intro h; rw [h]; decide
  · intro h; rw [h]; decide

/-- Witness of C4 (amended): three atlases. -/
theorem C4_preset_exports_witness :
    probMapWrites (main cAtoi (fun _ => Dbl.finite 0) ["ems", "img", "3", "c", "g", "w", "out"]).1 =
      [(0, "csf.hdr"), (1, "gray.hdr"), (2, "white.hdr")] :=
  (C4_preset_exports cAtoi (fun _ => Dbl.finite 0) ["ems", "img", "3", "c", "g", "w", "out"] _ _ "out"
    rfl rfl).2.2 (by decide)

/-- C5: in a run of `main` that gets past argument parsing with a class count other than 2,
3, 5 and 11, no named probability map is written, while the Gaussian-parameter report
`parameters.txt` and the label volume (`segmentation.Write(output_name)`) are written. -/
theorem C5_unrecognised_count_no_exports (atoi : String → Int) (r : Nat → Dbl)
    (argv : List String) (tr : List Event) (s : Settings)
    (hparse : parseArgs atoi argv = Phase.next tr s)
    (hn : s.n ≠ 2 ∧ s.n ≠ 3 ∧ s.n ≠ 5 ∧ s.n ≠ 11) :
    probMapWrites (main atoi r argv).1 = [] ∧
    Event.writeGaussianParameters "parameters.txt" ∈ (main atoi r argv).1 ∧
    Event.segmentationWrite s.output_name ∈ (main atoi r argv).1 := by
  refine ⟨?_, ?_, ?_⟩
  · rw [main_probMapWrites atoi r argv tr s hparse]
    obtain ⟨h2, h3, h5, h11⟩ := hn
    simp [probMaps, h2, h3, h5, h11]
  · obtain ⟨m, _, _, htr, _, _⟩ := classify_spec r s
    rw [main_of_next atoi r argv tr s hparse]
    simp [htr, classifyHead]
  · obtain ⟨m, _, _, htr, _, _⟩ := classify_spec r s
    rw [main_of_next atoi r argv tr s hparse]
    simp [htr, classifyHead]

/-- Witness of C5: four atlases, output `seg.hdr`. -/
theorem C5_unrecognised_count_no_exports_witness :
    probMapWrites
      (main cAtoi (fun _ => Dbl.finite 0) ["ems", "img", "4", "a", "b", "c", "d", "seg.hdr"]).1 = [] ∧
    Event.writeGaussianParameters "parameters.txt" ∈
      (main cAtoi (fun _ => Dbl.finite 0) ["ems", "img", "4", "a", "b", "c", "d", "seg.hdr"]).1 ∧
    Event.segmentationWrite (some "seg.hdr") ∈
      (main cAtoi (fun _ => Dbl.finite 0) ["ems", "img", "4", "a", "b", "c", "d", "seg.hdr"]).1 :=
  C5_unrecognised_count_no_exports cAtoi (fun _ => Dbl.finite 0)
    ["ems", "img", "4", "a", "b", "c", "d", "seg.hdr"] _ _ rfl (by decide)

/-- C6, the code at a failing input: with `argv = ems image 1 atlas1` (`argc = 4 < 1 + 4`)
there is no usage error; the atlas is read, the null `argv[argc]` becomes `output_name`, and
`SetInput`, `InitialiseGMM` and `IterateGMM` all run before `segmentation.Write` receives
the null name. -/
theorem C6_missing_output_runs_classification :
    ((["ems", "image", "1", "atlas1"].length : Int) < cAtoi "1" + 4) ∧
    main cAtoi (fun _ => Dbl.finite 0) ["ems", "image", "1", "atlas1"] =
      ([Event.imageRead "image", Event.atlasRead 0 "atlas1", Event.construct 1 ["atlas1"],
        Event.setInput "image", Event.setPadding (-1), Event.initialiseGMM,
        Event.progress 1 15, Event.iterateGMM 1,
        Event.writeGaussianParameters "parameters.txt", Event.constructSegmentationNoBG,
        Event.segmentationWrite none], Outcome.nullArgument) := by
  have hp : parseArgs cAtoi ["ems", "image", "1", "atlas1"] =
      Phase.next [Event.imageRead "image", Event.atlasRead 0 "atlas1"]
        ⟨"image", 1, ["atlas1"], none, 15, -1, none⟩ := rfl
  refine ⟨by decide, ?_⟩
  rw [main_of_next cAtoi (fun _ => Dbl.finite 0) _ _ _ hp]
  have hloop : iterateLoop (fun _ => Dbl.finite 0) 15 1 = [Event.progress 1 15, Event.iterateGMM 1] := by
    rw [iterateLoop_unfold, if_neg]
    norm_num [Dbl.gt, threshold]
  simp [classify, hloop]

/-- C9: in every run of `main` that gets past argument parsing the calls on the engine are,
in this order: the construction, `SetInput`, `SetPadding`, `InitialiseGMM` once, the calls
`IterateGMM(1), .., IterateGMM(m)` for some `m ≥ 1`, `WriteGaussianParameters` once,
`ConstructSegmentationNoBG` once, and then the `WriteProbMap` exports; there is no other
call, so `IterateGMM` is never called before `InitialiseGMM` nor after the decision step. -/
theorem C9_engine_call_order (atoi : String → Int) (r : Nat → Dbl)
    (argv : List String) (tr : List Event) (s : Settings)
    (hparse : parseArgs atoi argv = Phase.next tr s) :
    ∃ m, 1 ≤ m ∧
      engineCalls (main atoi r argv).1 =
        [Event.construct s.n s.atlas, Event.setInput s.image, Event.setPadding s.padding,
          Event.initialiseGMM] ++
        (List.range' 1 m).map Event.iterateGMM ++
        [Event.writeGaussianParameters "parameters.txt", Event.constructSegmentationNoBG] ++
        (if s.output_name.isSome then
          (probMaps s.n).map (fun p => Event.writeProbMap p.1 p.2) else []) := by
  obtain ⟨m, hm1, _, h⟩ := main_engineCalls atoi r argv tr s hparse
  exact ⟨m, hm1, h⟩

/-- Witness of C9: two atlases, padding 0. -/
theorem C9_engine_call_order_witness :
    ∃ m, 1 ≤ m ∧
      engineCalls
        (main cAtoi (fun _ => Dbl.finite 0) ["ems", "img", "2", "g", "w", "out", "-padding", "0"]).1 =
        [Event.construct 2 ["g", "w"], Event.setInput "img", Event.setPadding 0,
          Event.initialiseGMM] ++
        (List.range' 1 m).map Event.iterateGMM ++
        [Event.writeGaussianParameters "parameters.txt", Event.constructSegmentationNoBG] ++
        [Event.writeProbMap 0 "gray.hdr", Event.writeProbMap 1 "white.hdr"] :=
  C9_engine_call_order cAtoi (fun _ => Dbl.finite 0)
    ["ems", "img", "2", "g", "w", "out", "-padding", "0"] _ _ rfl

/-! ## Well-formed argument vectors -/

theorem readAtlases_exact (n : Int) :
    ∀ (paths : List String) (i : Nat) (rest : List String), (i : Int) + paths.length = n →
      readAtlases n i (paths ++ rest) = Phase.next (atlasReads i paths) (paths, rest) := by
  intro paths
  induction paths with
  | nil =>
    intro i rest h
    have hi : ¬ (i : Int) < n := by simp at h; omega
    cases rest <;> simp [readAtlases, hi, atlasReads]
  | cons a paths ih =>
    intro i rest h
    have hi : (i : Int) < n := by simp at h; omega
    have := ih (i + 1) rest (by simp at h ⊢; omega)
    simp [readAtlases, hi, this, atlasReads]

theorem parseOptions_optionArgs (atoi : String → Int) :
    ∀ (opts : List (OptionName × String)) (o : Options),
      parseOptions atoi (optionArgs opts) o =
        Phase.next (backgroundReads opts) (opts.foldl (applyOption atoi) o) := by
  intro opts
  induction opts with
  | nil => intro o; simp [optionArgs, parseOptions, backgroundReads]
  | cons kv opts ih =>
    intro o
    obtain ⟨k, v⟩ := kv
    cases k <;>
      simp [optionArgs, OptionName.flag, parseOptions, ih, backgroundReads, applyOption]

theorem lastValue_cons_same (k : OptionName) (v : String) (opts : List (OptionName × String)) :
    lastValue k ((k, v) :: opts) = some ((lastValue k opts).getD v) := by
  unfold lastValue
  rw [List.filter_cons_of_pos (by simp), List.map_cons, List.getLast?_cons]

theorem lastValue_cons_other (k k' : OptionName) (v : String)
    (opts : List (OptionName × String)) (h : k' ≠ k) :
    lastValue k ((k', v) :: opts) = lastValue k opts := by
  unfold lastValue
  rw [List.filter_cons_of_neg (by simpa using h)]

theorem foldl_applyOption_iterations (atoi : String → Int) :
    ∀ (opts : List (OptionName × String)) (o : Options),
      (opts.foldl (applyOption atoi) o).iterations =
        (lastValue OptionName.iterations opts).elim o.iterations atoi := by
  intro opts
  induction opts with
  | nil => intro o; rfl
  | cons kv opts ih =>
    intro o
    obtain ⟨k, v⟩ := kv
    rw [List.foldl_cons, ih]
    cases k
    · rw [lastValue_cons_same]
      cases lastValue OptionName.iterations opts <;> rfl
    · rw [lastValue_cons_other _ _ _ _ (by decide)]; rfl
    · rw [lastValue_cons_other _ _ _ _ (by decide)]; rfl

theorem foldl_applyOption_padding (atoi : String → Int) :
    ∀ (opts : List (OptionName × String)) (o : Options),
      (opts.foldl (applyOption atoi) o).padding =
        (lastValue OptionName.padding opts).elim o.padding atoi := by
  intro opts
  induction opts with
  | nil => intro o; rfl
  | cons kv opts ih =>
    intro o
    obtain ⟨k, v⟩ := kv
    rw [List.foldl_cons, ih]
    cases k
    · rw [lastValue_cons_other _ _ _ _ (by decide)]; rfl
    · rw [lastValue_cons_same]
      cases lastValue OptionName.padding opts <;> rfl
    · rw [lastValue_cons_other _ _ _ _ (by decide)]; rfl

/-- Parsing a well-formed argument vector succeeds, with these actions and settings. -/
theorem parseArgs_wellFormed (atoi : String → Int) (prog image nArg : String)
    (atlases : List String) (output : String) (opts : List (OptionName × String))
    (hn : atoi nArg = (atlases.length : Int)) :
    parseArgs atoi (wellFormedArgv prog image nArg atlases output opts) =
      Phase.next (Event.imageRead image :: atlasReads 0 atlases ++ backgroundReads opts)
        ⟨image, atoi nArg, atlases, some output,
          (opts.foldl (applyOption atoi) defaultOptions).iterations,
          (opts.foldl (applyOption atoi) defaultOptions).padding,
          (opts.foldl (applyOption atoi) defaultOptions).background⟩ := by
  have hlen : ¬ (wellFormedArgv prog image nArg atlases output opts).length < 4 := by
    simp [wellFormedArgv]; omega
  have hneg : ¬ atoi nArg < 0 := by rw [hn]; omega
  have hread := readAtlases_exact (atoi nArg) atlases 0 (output :: optionArgs opts)
    (by rw [hn]; simp)
  unfold parseArgs
  rw [if_neg hlen]
  simp only [wellFormedArgv, hneg, if_false, hread, List.tail_cons, List.head?_cons,
    parseOptions_optionArgs]

theorem mem_backgroundReads (opts : List (OptionName × String)) (b : String)
    (h : (OptionName.background, b) ∈ opts) : Event.backgroundRead b ∈ backgroundReads opts := by
  induction opts with
  | nil => cases h
  | cons kv opts ih =>
    obtain ⟨k, v⟩ := kv
    rcases List.mem_cons.1 h with h1 | h1
    · cases h1
      exact List.mem_cons_self _ _
    · cases k
      · exact ih h1
      · exact ih h1
      · exact List.mem_cons_of_mem _ (ih h1)

/-! ## The background grid -/

/-- C7, as stated, fails: with `-background bg` on the command line the background grid is
read, but the engine is constructed by `irtkEMClassification(n, atlas)`, without it. -/
theorem C7_counterexample :
    Event.backgroundRead "bg" ∈
      (main cAtoi (fun _ => Dbl.finite 0) ["ems", "img", "1", "a", "out", "-background", "bg"]).1 ∧
    constructorCalls
      (main cAtoi (fun _ => Dbl.finite 0) ["ems", "img", "1", "a", "out", "-background", "bg"]).1 =
        [Event.construct 1 ["a"]] ∧
    Event.constructWithBackground 1 ["a"] (some "bg") ∉
      (main cAtoi (fun _ => Dbl.finite 0) ["ems", "img", "1", "a", "out", "-background", "bg"]).1 := by
  have hp : parseArgs cAtoi ["ems", "img", "1", "a", "out", "-background", "bg"] =
      Phase.next [Event.imageRead "img", Event.atlasRead 0 "a", Event.backgroundRead "bg"]
        ⟨"img", 1, ["a"], some "out", 15, -1, some "bg"⟩ := rfl
  have h := main_constructorCalls cAtoi (fun _ => Dbl.finite 0)
    ["ems", "img", "1", "a", "out", "-background", "bg"] _ _ hp
  refine ⟨?_, h, ?_⟩
  · rw [main_of_next cAtoi (fun _ => Dbl.finite 0) _ _ _ hp]
    simp
  · intro hmem
    have : Event.constructWithBackground 1 ["a"] (some "bg") ∈ constructorCalls
        (main cAtoi (fun _ => Dbl.finite 0) ["ems", "img", "1", "a", "out", "-background", "bg"]).1 := by
      unfold constructorCalls
      exact List.mem_filter.2 ⟨hmem, rfl⟩
    rw [h] at this
    simp at this

/-- C7 (amended): in every run of `main` that gets past argument parsing the engine is
constructed exactly once, from the `n` tissue atlases alone, whether or not a background grid
was supplied with `-background`; a supplied background grid (the one held by `background`
after parsing, and on a well-formed argument vector every grid named by a `-background`
option) is read but is not handed to the engine. -/
theorem C7_background_not_passed (atoi : String → Int) (r : Nat → Dbl)
    (argv : List String) (tr : List Event) (s : Settings)
    (hparse : parseArgs atoi argv = Phase.next tr s) :
    constructorCalls (main atoi r argv).1 = [Event.construct s.n s.atlas] ∧
    (∀ n atlas background,
      Event.constructWithBackground n atlas background ∉ (main atoi r argv).1) ∧
    (∀ b, s.background = some b → Event.backgroundRead b ∈ (main atoi r argv).1) ∧
    (∀ prog image nArg atlases output opts,
      argv = wellFormedArgv prog image nArg atlases output opts →
      atoi nArg = (atlases.length : Int) →
      ∀ b, (OptionName.background, b) ∈ opts →
        Event.backgroundRead b ∈ (main atoi r argv).1) := by
  have h := main_constructorCalls atoi r argv tr s hparse
  refine ⟨h, ?_, ?_, ?_⟩
  · intro n atlas background hmem
    have : Event.constructWithBackground n atlas background ∈
        constructorCalls (main atoi r argv).1 := by
      unfold constructorCalls
      exact List.mem_filter.2 ⟨hmem, rfl⟩
    rw [h] at this
    simp at this
  · intro b hb
    rw [main_of_next atoi r argv tr s hparse]
    exact List.mem_append_left _ (parseArgs_background atoi argv tr s hparse b hb)
  · intro prog image nArg atlases output opts hargv hn b hb
    subst hargv
    rw [main_of_next atoi r _ _ _ (parseArgs_wellFormed atoi prog image nArg atlases output opts hn)]
    exact List.mem_append_left _ (List.mem_cons_of_mem _
      (List.mem_append_right _ (mem_backgroundReads opts b hb)))

/-- Witness of C7 (amended): two atlases and `-background bg`. -/
theorem C7_background_not_passed_witness :
    constructorCalls
      (main cAtoi (fun _ => Dbl.finite 0)
        ["ems", "img", "2", "a", "b", "out", "-background", "bg"]).1 =
        [Event.construct 2 ["a", "b"]] ∧
    (∀ n atlas background, Event.constructWithBackground n atlas background ∉
      (main cAtoi (fun _ => Dbl.finite 0)
        ["ems", "img", "2", "a", "b", "out", "-background", "bg"]).1) ∧
    (∀ b, (some "bg" : Option String) = some b → Event.backgroundRead b ∈
      (main cAtoi (fun _ => Dbl.finite 0)
        ["ems", "img", "2", "a", "b", "out", "-background", "bg"]).1) ∧
    (∀ prog image nArg atlases output opts,
      ["ems", "img", "2", "a", "b", "out", "-background", "bg"] =
        wellFormedArgv prog image nArg atlases output opts →
      cAtoi nArg = (atlases.length : Int) →
      ∀ b, (OptionName.background, b) ∈ opts →
        Event.backgroundRead b ∈ (main cAtoi (fun _ => Dbl.finite 0)
          ["ems", "img", "2", "a", "b", "out", "-background", "bg"]).1) :=
  C7_background_not_passed cAtoi (fun _ => Dbl.finite 0)
    ["ems", "img", "2", "a", "b", "out", "-background", "bg"] _ _ rfl

/-! ## Claims about the configuration -/

theorem paddingCalls_append (a b : List Event) :
    paddingCalls (a ++ b) = paddingCalls a ++ paddingCalls b := by
  induction a with
  | nil => rfl
  | cons e a ih => cases e <;> simp [paddingCalls, ih]

theorem paddingCalls_parse (tr : List Event) (h : ∀ e ∈ tr, e.isParseAction = true) :
    paddingCalls tr = [] := by
  induction tr with
  | nil => rfl
  | cons e tr ih =>
    have he := h e (List.mem_cons_self _ _)
    have ht := ih (fun x hx => h x (List.mem_cons_of_mem _ hx))
    cases e <;> simp [Event.isParseAction] at he <;> simp [paddingCalls, ht]

theorem paddingCalls_loopTrace (its : Int) (js : List Nat) :
    paddingCalls (loopTrace its js) = [] := by
  induction js with
  | nil => rfl
  | cons j js ih => simp [loopTrace, paddingCalls, ih]

theorem paddingCalls_exportsOf (s : Settings) : paddingCalls (exportsOf s) = [] := by
  unfold exportsOf
  split
  · generalize probMaps s.n = l
    induction l with
    | nil => rfl
    | cons p l ih => simp [paddingCalls, ih]
  · rfl

/-- The `SetPadding` calls of a run that gets past argument parsing. -/
theorem main_paddingCalls (atoi : String → Int) (r : Nat → Dbl) (argv : List String)
    (tr : List Event) (s : Settings) (h : parseArgs atoi argv = Phase.next tr s) :
    paddingCalls (main atoi r argv).1 = [s.padding] := by
  obtain ⟨m, _, _, htr, _, _⟩ := classify_spec r s
  rw [main_of_next atoi r argv tr s h]
  simp only [paddingCalls_append, htr, paddingCalls_parse tr (parseArgs_trace atoi argv tr s h),
    List.nil_append, paddingCalls_exportsOf, List.append_nil]
  unfold classifyHead
  simp [paddingCalls_append, paddingCalls, paddingCalls_loopTrace]

theorem progress_mem_loopTrace (its : Int) (js : List Nat) (i : Nat) (x : Int)
    (h : Event.progress i x ∈ loopTrace its js) : x = its := by
  induction js with
  | nil => cases h
  | cons j js ih =>
    simp only [loopTrace, List.mem_cons] at h
    rcases h with h | h | h
    · cases h; rfl
    · cases h
    · exact ih h

/-- Every progress message of a run that gets past argument parsing shows `iterations`. -/
theorem main_progress (atoi : String → Int) (r : Nat → Dbl) (argv : List String)
    (tr : List Event) (s : Settings) (h : parseArgs atoi argv = Phase.next tr s)
    (i : Nat) (x : Int) (hmem : Event.progress i x ∈ (main atoi r argv).1) :
    x = s.iterations := by
  obtain ⟨m, _, _, htr, _, _⟩ := classify_spec r s
  rw [main_of_next atoi r argv tr s h] at hmem
  simp only [htr, List.mem_append] at hmem
  rcases hmem with hmem | hmem | hmem
  · have := parseArgs_trace atoi argv tr s h _ hmem
    simp [Event.isParseAction] at this
  · unfold classifyHead at hmem
    simp only [List.mem_append, List.mem_cons, List.mem_singleton] at hmem
    rcases hmem with (hmem | hmem) | hmem
    · rcases hmem with hmem | hmem | hmem | hmem | hmem <;> cases hmem
    · exact progress_mem_loopTrace _ _ _ _ hmem
    · rcases hmem with hmem | hmem | hmem | hmem <;> cases hmem
  · unfold exportsOf at hmem
    split at hmem
    · obtain ⟨p, _, hp⟩ := List.mem_map.1 hmem
      cases hp
    · cases hmem

/-- C8: for every well-formed argument vector, parsing succeeds and the configuration `main`
ends up with is: iteration count 15 when there is no `-iterations` option, otherwise the
`atoi` value of the argument following the last `-iterations`; padding `-1` when there is no
`-padding` option, otherwise the `atoi` value of the argument following the last `-padding`.
`SetPadding` is called exactly once, with that padding, and every progress message shows that
iteration count. -/
theorem C8_configuration (atoi : String → Int) (r : Nat → Dbl) (prog image nArg : String)
    (atlases : List String) (output : String) (opts : List (OptionName × String))
    (hn : atoi nArg = (atlases.length : Int)) :
    ∃ tr s, parseArgs atoi (wellFormedArgv prog image nArg atlases output opts) =
        Phase.next tr s ∧
      s.iterations = (lastValue OptionName.iterations opts).elim 15 atoi ∧
      s.padding = (lastValue OptionName.padding opts).elim (-1) atoi ∧
      (opts = [] → s.iterations = 15 ∧ s.padding = -1) ∧
      paddingCalls (main atoi r (wellFormedArgv prog image nArg atlases output opts)).1 =
        [(lastValue OptionName.padding opts).elim (-1) atoi] ∧
      ∀ i x,
        Event.progress i x ∈
          (main atoi r (wellFormedArgv prog image nArg atlases output opts)).1 →
        x = (lastValue OptionName.iterations opts).elim 15 atoi := by
  have hp := parseArgs_wellFormed atoi prog image nArg atlases output opts hn
  have hi := foldl_applyOption_iterations atoi opts defaultOptions
  have hpad := foldl_applyOption_padding atoi opts defaultOptions
  refine ⟨_, _, hp, hi, hpad, ?_, ?_, ?_⟩
  · intro h; subst h; exact ⟨rfl, rfl⟩
  · rw [main_paddingCalls atoi r _ _ _ hp]
    exact congrArg (fun x => [x]) hpad
  · intro i x hmem
    rw [main_progress atoi r _ _ _ hp i x hmem]
    exact hi

/-- Witness of C8: `-padding 0 -iterations 7 -background bg -iterations 9`. -/
theorem C8_configuration_witness :
    ∃ tr s, parseArgs cAtoi
        ["ems", "img", "2", "g", "w", "out", "-padding", "0", "-iterations", "7",
          "-background", "bg", "-iterations", "9"] = Phase.next tr s ∧
      s.iterations = 9 ∧
      s.padding = 0 ∧
      (([(OptionName.padding, "0"), (OptionName.iterations, "7"), (OptionName.background, "bg"),
        (OptionName.iterations, "9")] : List (OptionName × String)) = [] →
          s.iterations = 15 ∧ s.padding = -1) ∧
      paddingCalls (main cAtoi (fun _ => Dbl.finite 0)
        ["ems", "img", "2", "g", "w", "out", "-padding", "0", "-iterations", "7",
          "-background", "bg", "-iterations", "9"]).1 = [0] ∧
      ∀ i x,
        Event.progress i x ∈ (main cAtoi (fun _ => Dbl.finite 0)
          ["ems", "img", "2", "g", "w", "out", "-padding", "0", "-iterations", "7",
            "-background", "bg", "-iterations", "9"]).1 →
        x = 9 :=
  C8_configuration cAtoi (fun _ => Dbl.finite 0) "ems" "img" "2" ["g", "w"] "out"
    [(OptionName.padding, "0"), (OptionName.iterations, "7"), (OptionName.background, "bg"),
      (OptionName.iterations, "9")] (by decide)

/-! ## Independence of the iteration count -/

/-- The counter values of the loop do not depend on `iterations`. -/
theorem iterateLoop_indices (r : Nat → Dbl) (d : Nat) :
    ∀ i, 50 - i = d → ∃ js, ∀ its, iterateLoop r its i = loopTrace its js := by
  induction d with
  | zero =>
    intro i h
    refine ⟨[i], fun its => ?_⟩
    rw [iterateLoop_unfold, if_neg (by omega)]; rfl
  | succ d ih =>
    intro i h
    by_cases hc : Dbl.gt (r i) threshold = true ∧ i + 1 < 50
    · obtain ⟨js, hjs⟩ := ih (i + 1) (by omega)
      refine ⟨i :: js, fun its => ?_⟩
      rw [iterateLoop_unfold, if_pos hc, hjs its, loopTrace]
    · refine ⟨[i], fun its => ?_⟩
      rw [iterateLoop_unfold, if_neg hc]; rfl

theorem withoutProgress_cons (e : Event) (tr : List Event) :
    withoutProgress (e :: tr) =
      if e.isProgress = true then withoutProgress tr else e :: withoutProgress tr := by
  unfold withoutProgress
  rw [List.filter_cons]
  cases e.isProgress <;> rfl

theorem withoutProgress_append (a b : List Event) :
    withoutProgress (a ++ b) = withoutProgress a ++ withoutProgress b := by
  unfold withoutProgress
  exact List.filter_append a b

theorem withoutProgress_loopTrace (its : Int) (js : List Nat) :
    withoutProgress (loopTrace its js) = js.map Event.iterateGMM := by
  induction js with
  | nil => rfl
  | cons j js ih =>
    rw [loopTrace, withoutProgress_cons, withoutProgress_cons, ih]
    rfl

/-- The classification phase without its progress messages, and its outcome, do not depend
on `iterations`. -/
theorem classify_iterations (r : Nat → Dbl) (s : Settings) (its : Int) :
    withoutProgress (classify r { s with iterations := its }).1 =
        withoutProgress (classify r s).1 ∧
    (classify r { s with iterations := its }).2 = (classify r s).2 := by
  obtain ⟨js, hjs⟩ := iterateLoop_indices r 49 1 rfl
  unfold classify
  cases s.output_name <;>
    simp only [hjs, withoutProgress_append, withoutProgress_loopTrace, and_self]

theorem backgroundReads_filter (opts : List (OptionName × String)) :
    backgroundReads (opts.filter (fun o => o.1 ≠ OptionName.iterations)) =
      backgroundReads opts := by
  induction opts with
  | nil => rfl
  | cons kv opts ih =>
    obtain ⟨k, v⟩ := kv
    cases k
    · rw [List.filter_cons_of_neg (by simp)]; exact ih
    · rw [List.filter_cons_of_pos (by simp)]; exact ih
    · rw [List.filter_cons_of_pos (by simp)]
      exact congrArg (fun l => Event.backgroundRead v :: l) ih

theorem foldl_applyOption_filter (atoi : String → Int) :
    ∀ (opts : List (OptionName × String)) (o : Options),
      ((opts.filter (fun o => o.1 ≠ OptionName.iterations)).foldl (applyOption atoi) o).padding =
          (opts.foldl (applyOption atoi) o).padding ∧
      ((opts.filter (fun o => o.1 ≠ OptionName.iterations)).foldl (applyOption atoi)
          o).background = (opts.foldl (applyOption atoi) o).background := by
  intro opts
  induction opts with
  | nil => intro o; exact ⟨rfl, rfl⟩
  | cons kv opts ih =>
    intro o
    obtain ⟨k, v⟩ := kv
    cases k
    · have hpad : ∀ (l : List (OptionName × String)) (o : Options) (x : Int),
          (l.foldl (applyOption atoi) { o with iterations := x }).padding =
              (l.foldl (applyOption atoi) o).padding ∧
          (l.foldl (applyOption atoi) { o with iterations := x }).background =
              (l.foldl (applyOption atoi) o).background := by
        intro l
        induction l with
        | nil => intro o x; exact ⟨rfl, rfl⟩
        | cons kv l ihl =>
          intro o x
          obtain ⟨k, v⟩ := kv
          cases k
          · exact ⟨rfl, rfl⟩
          · exact ihl { o with padding := atoi v } x
          · exact ihl { o with background := some v } x
      have h1 := ih o
      have h2 := hpad opts o (atoi v)
      rw [List.filter_cons_of_neg (by simp), List.foldl_cons]
      exact ⟨h1.1.trans h2.1.symm, h1.2.trans h2.2.symm⟩
    · rw [List.filter_cons_of_pos (by simp), List.foldl_cons, List.foldl_cons]
      exact ih _
    · rw [List.filter_cons_of_pos (by simp), List.foldl_cons, List.foldl_cons]
      exact ih _

theorem iterateCalls_withoutProgress (tr : List Event) :
    iterateCalls (withoutProgress tr) = iterateCalls tr := by
  induction tr with
  | nil => rfl
  | cons e tr ih =>
    rw [withoutProgress_cons]
    cases e <;> simp [Event.isProgress, iterateCalls, ih]

theorem engineCalls_withoutProgress (tr : List Event) :
    engineCalls (withoutProgress tr) = engineCalls tr := by
  induction tr with
  | nil => rfl
  | cons e tr ih =>
    rw [withoutProgress_cons]
    unfold engineCalls at ih ⊢
    cases e <;> simp [Event.isProgress, Event.isEngineCall, List.filter_cons, ih]

/-- C10: the configured iteration count has no influence on the classification.  For two
well-formed argument vectors that agree except for their `-iterations` options (present or
not, with whatever values) and the same `IterateGMM` results, the runs of `main` perform the
same actions apart from the progress messages, in particular the same `IterateGMM` calls
with the same indices and the same calls on the engine, and end the same way. -/
theorem C10_iterations_no_influence (atoi : String → Int) (r : Nat → Dbl)
    (prog image nArg : String) (atlases : List String) (output : String)
    (opts₁ opts₂ : List (OptionName × String))
    (hn : atoi nArg = (atlases.length : Int))
    (hsame : opts₁.filter (fun o => o.1 ≠ OptionName.iterations) =
      opts₂.filter (fun o => o.1 ≠ OptionName.iterations)) :
    withoutProgress (main atoi r (wellFormedArgv prog image nArg atlases output opts₁)).1 =
      withoutProgress (main atoi r (wellFormedArgv prog image nArg atlases output opts₂)).1 ∧
    iterateCalls (main atoi r (wellFormedArgv prog image nArg atlases output opts₁)).1 =
      iterateCalls (main atoi r (wellFormedArgv prog image nArg atlases output opts₂)).1 ∧
    engineCalls (main atoi r (wellFormedArgv prog image nArg atlases output opts₁)).1 =
      engineCalls (main atoi r (wellFormedArgv prog image nArg atlases output opts₂)).1 ∧
    (main atoi r (wellFormedArgv prog image nArg atlases output opts₁)).2 =
      (main atoi r (wellFormedArgv prog image nArg atlases output opts₂)).2 := by
  have hp₁ := parseArgs_wellFormed atoi prog image nArg atlases output opts₁ hn
  have hp₂ := parseArgs_wellFormed atoi prog image nArg atlases output opts₂ hn
  have hbg : backgroundReads opts₁ = backgroundReads opts₂ := by
    rw [← backgroundReads_filter opts₁, ← backgroundReads_filter opts₂, hsame]
  have hf₁ := foldl_applyOption_filter atoi opts₁ defaultOptions
  have hf₂ := foldl_applyOption_filter atoi opts₂ defaultOptions
  rw [hsame] at hf₁
  have hpad : (opts₁.foldl (applyOption atoi) defaultOptions).padding =
      (opts₂.foldl (applyOption atoi) defaultOptions).padding := hf₁.1.symm.trans hf₂.1
  have hback : (opts₁.foldl (applyOption atoi) defaultOptions).background =
      (opts₂.foldl (applyOption atoi) defaultOptions).background := hf₁.2.symm.trans hf₂.2
  rw [hbg, hpad, hback] at hp₁
  have hc := classify_iterations r
    ⟨image, atoi nArg, atlases, some output,
      (opts₂.foldl (applyOption atoi) defaultOptions).iterations,
      (opts₂.foldl (applyOption atoi) defaultOptions).padding,
      (opts₂.foldl (applyOption atoi) defaultOptions).background⟩
    (opts₁.foldl (applyOption atoi) defaultOptions).iterations
  have hwp : withoutProgress
      (main atoi r (wellFormedArgv prog image nArg atlases output opts₁)).1 =
      withoutProgress
        (main atoi r (wellFormedArgv prog image nArg atlases output opts₂)).1 := by
    rw [main_of_next atoi r _ _ _ hp₁, main_of_next atoi r _ _ _ hp₂]
    simp only [withoutProgress_append]
    rw [hc.1]
  refine ⟨hwp, ?_, ?_, ?_⟩
  · rw [← iterateCalls_withoutProgress, hwp, iterateCalls_withoutProgress]
  · rw [← engineCalls_withoutProgress, hwp, engineCalls_withoutProgress]
  · rw [main_of_next atoi r _ _ _ hp₁, main_of_next atoi r _ _ _ hp₂]
    exact hc.2

/-- Witness of C10: `-iterations 3` against no `-iterations` option (the default 15), with
values `1, 1, 0, ..`. -/
theorem C10_iterations_no_influence_witness :
    withoutProgress (main cAtoi (fun i => if i < 3 then Dbl.finite 1 else Dbl.finite 0)
        ["ems", "img", "2", "g", "w", "out", "-iterations", "3", "-padding", "0"]).1 =
      withoutProgress (main cAtoi (fun i => if i < 3 then Dbl.finite 1 else Dbl.finite 0)
        ["ems", "img", "2", "g", "w", "out", "-padding", "0"]).1 ∧
    iterateCalls (main cAtoi (fun i => if i < 3 then Dbl.finite 1 else Dbl.finite 0)
        ["ems", "img", "2", "g", "w", "out", "-iterations", "3", "-padding", "0"]).1 =
      iterateCalls (main cAtoi (fun i => if i < 3 then Dbl.finite 1 else Dbl.finite 0)
        ["ems", "img", "2", "g", "w", "out", "-padding", "0"]).1 ∧
    engineCalls (main cAtoi (fun i => if i < 3 then Dbl.finite 1 else Dbl.finite 0)
        ["ems", "img", "2", "g", "w", "out", "-iterations", "3", "-padding", "0"]).1 =
      engineCalls (main cAtoi (fun i => if i < 3 then Dbl.finite 1 else Dbl.finite 0)
        ["ems", "img", "2", "g", "w", "out", "-padding", "0"]).1 ∧
    (main cAtoi (fun i => if i < 3 then Dbl.finite 1 else Dbl.finite 0)
        ["ems", "img", "2", "g", "w", "out", "-iterations", "3", "-padding", "0"]).2 =
      (main cAtoi (fun i => if i < 3 then Dbl.finite 1 else Dbl.finite 0)
        ["ems", "img", "2", "g", "w", "out", "-padding", "0"]).2 :=
  C10_iterations_no_influence cAtoi (fun i => if i < 3 then Dbl.finite 1 else Dbl.finite 0) "ems" "img" "2"
    ["g", "w"] "out" [(OptionName.iterations, "3"), (OptionName.padding, "0")]
    [(OptionName.padding, "0")] (by decide) (by decide)

end Gmm
